import Mathlib

/-!
Verification of the command-grammar compiler and matcher of this repository
(`cmd_parser.py`, `transf.py`, `parser.py`, `parser_Check.py`) against its
natural-language specification.  The Python sources are shallowly embedded:
pure string processing becomes Lean string/char-list functions, the regular
expressions the compilers emit become a small pattern AST (`RPat`) with an
executable backtracking matcher, and fallible steps (`re.error`) become
`Option`.  Templates are taken in their canonical single-space-separated
token form (the form every grammar row in scope uses), pre-split into the
token structure (`TTok`) that the source code's substitution passes operate
on.
-/

namespace Spec2Proof

/-- Python regex whitespace class `\s`, ASCII fragment (the inputs in scope
are ASCII). -/
def isSpaceChar (c : Char) : Bool :=
  c = ' ' || c = '\t' || c = '\n' || c = '\x0d' || c = '\x0b' || c = '\x0c'

/-- Python word-character class `\w`, ASCII fragment. -/
def isWordChar (c : Char) : Bool :=
  c.isAlpha || c.isDigit || c = '_'

/-- Python `str.lower()` (ASCII fragment). -/
def toLowerStr (s : String) : String := String.mk (s.data.map Char.toLower)

def dropLeadWs (cs : List Char) : List Char := cs.dropWhile (fun c => isSpaceChar c)

/-- Python `str.strip()` on a character list. -/
def pyStripL (cs : List Char) : List Char :=
  ((dropLeadWs cs).reverse.dropWhile (fun c => isSpaceChar c)).reverse

/-- Python `str.strip()`. -/
def pyStrip (s : String) : String := String.mk (pyStripL s.data)

/-- Whitespace-split into words, dropping empty fields (`str.split()`). -/
def splitWsGo : List Char → List Char → List String
  | cur, [] => if cur.isEmpty then [] else [String.mk cur.reverse]
  | cur, c :: cs =>
    if isSpaceChar c then
      (if cur.isEmpty then [] else [String.mk cur.reverse]) ++ splitWsGo [] cs
    else splitWsGo (c :: cur) cs

def pyWords (s : String) : List String := splitWsGo [] s.data

/-- Split on one separator character, keeping empty fields (Python
`str.split(sep)` with a one-character separator set). -/
def splitOnPredGo (p : Char → Bool) : List Char → List Char → List String
  | cur, [] => [String.mk cur.reverse]
  | cur, c :: cs =>
    if p c then String.mk cur.reverse :: splitOnPredGo p [] cs
    else splitOnPredGo p (c :: cur) cs

def splitOnPred (p : Char → Bool) (s : String) : List String :=
  splitOnPredGo p [] s.data

/-! ## Template tokens

Both compilers read one grammar row's template as a sequence of tokens:
literal words, `<var>` variables, `<var>...` list variables, `{a|b}`
choices, and one level of `[ ... ]` optional blocks.  `BTok` is a
non-optional token, `TTok` adds the optional block. -/

inductive BTok where
  | lit (s : String)
  | ang (s : String)
  | angN (s : String)
  | cur (s : String)
deriving DecidableEq

inductive TTok where
  | base (t : BTok)
  | opt (inner : List BTok)
deriving DecidableEq

/-! ## The emitted pattern language

The regex subset the compilers emit: exact literals, `\s+`, `\s*`, a named
`(?P<k>\S+)` / TextFSM `Value K (\S+)` capture, a named capture restricted to
literal alternatives (TextFSM `Value K (a|b)` and optional-keyword values), a
non-capturing literal alternation `(?:a|b)`, and an optional group
`(?:...)?`. -/

inductive RPat where
  | lit (s : String)
  | ws
  | wss
  | cap (name : String)
  | capChoice (name : String) (opts : List String)
  | alts (opts : List String)
  | opt (inner : List RPat)

abbrev Caps := List (String × String)

/-- Character comparison, optionally case-insensitive (`re.IGNORECASE`). -/
def lowEq (ci : Bool) (a b : Char) : Bool :=
  if ci then a.toLower = b.toLower else a = b

/-- Match a literal at the head of the input, returning the rest. -/
def dropLit (ci : Bool) : List Char → List Char → Option (List Char)
  | [], cs => some cs
  | _ :: _, [] => none
  | p :: ps, c :: cs => if lowEq ci p c then dropLit ci ps cs else none

def leadCount (p : Char → Bool) : List Char → Nat
  | [] => 0
  | c :: cs => if p c then leadCount p cs + 1 else 0

/-- Candidate consumption lengths `n, n-1, ..., 1` for a greedy one-or-more
with backtracking. -/
def greedyLens (n : Nat) : List Nat := (List.range n).map (fun i => n - i)

mutual
def patWeight : RPat → Nat
  | .lit _ => 1
  | .ws => 1
  | .wss => 1
  | .cap _ => 1
  | .capChoice _ _ => 1
  | .alts _ => 1
  | .opt inner => 1 + patsWeight inner

def patsWeight : List RPat → Nat
  | [] => 0
  | p :: ps => patWeight p + patsWeight ps
end

/-- Backtracking matcher for a full (Python `^...$`-anchored) pattern: a
match must consume the entire input.  Greedy constructs try the longest
consumption first, alternations try options left to right, optional groups
try the present branch first — the backtracking order of Python's `re` and
of TextFSM's compiled regexes.  `fuel` bounds the recursion; every call
strictly decreases `patsWeight ps + cs.length`, so any fuel above that
bound is enough. -/
def matchF (ci : Bool) : Nat → List RPat → List Char → Option Caps
  | 0, _, _ => none
  | _ + 1, [], [] => some []
  | _ + 1, [], _ :: _ => none
  | f + 1, .lit s :: ps, cs =>
    match dropLit ci s.data cs with
    | some cs2 => matchF ci f ps cs2
    | none => none
  | f + 1, .ws :: ps, cs =>
    (greedyLens (leadCount isSpaceChar cs)).findSome? fun i =>
      matchF ci f ps (cs.drop i)
  | f + 1, .wss :: ps, cs =>
    ((greedyLens (leadCount isSpaceChar cs)) ++ [0]).findSome? fun i =>
      matchF ci f ps (cs.drop i)
  | f + 1, .cap n :: ps, cs =>
    (greedyLens (leadCount (fun c => !isSpaceChar c) cs)).findSome? fun i =>
      (matchF ci f ps (cs.drop i)).map fun caps => (n, String.mk (cs.take i)) :: caps
  | f + 1, .capChoice n os :: ps, cs =>
    os.findSome? fun o =>
      match dropLit ci o.data cs with
      | some cs2 => (matchF ci f ps cs2).map fun caps => (n, o) :: caps
      | none => none
  | f + 1, .alts os :: ps, cs =>
    os.findSome? fun o =>
      match dropLit ci o.data cs with
      | some cs2 => matchF ci f ps cs2
      | none => none
  | f + 1, .opt inner :: ps, cs =>
    (matchF ci f (inner ++ ps) cs).orElse fun _ => matchF ci f ps cs

/-- Run a pattern with sufficient fuel. -/
def runPats (ci : Bool) (ps : List RPat) (cs : List Char) : Option Caps :=
  matchF ci (patsWeight ps + cs.length + 1) ps cs

/-! ## cmd_parser.py -/

namespace CmdP

/-- Regex metacharacters.  `compile_template` in cmd_parser.py copies literal
template text into the regex unescaped, so the embedding covers the fragment
in which literal text (and verb/object) is free of these; outside it the
emitted regex would not denote exact text. -/
def isMeta (c : Char) : Bool :=
  c = '.' || c = '^' || c = '$' || c = '*' || c = '+' || c = '?' || c = '(' ||
  c = ')' || c = '[' || c = ']' || c = '\x7b' || c = '\x7d' || c = '|' || c = '\\'

def plainLit (s : String) : Bool := s.data.all fun c => !(isMeta c)

/-- Collapse every maximal run of non-word characters to a single
underscore: `re.sub(r"[^\w]+", "_", ·)`.  The flag records whether the
previous character was part of a non-word run. -/
def wordifyGo : Bool → List Char → List Char
  | _, [] => []
  | prev, c :: cs =>
    if isWordChar c then c :: wordifyGo false cs
    else if prev then wordifyGo true cs
    else '_' :: wordifyGo true cs

/-- Step 4 of `compile_template` (`restore`): placeholder text → named-group
key. -/
def restore_key (raw : String) : String :=
  let key := String.mk (wordifyGo false (pyStrip raw).data)
  match key.data with
  | [] => "arg_" ++ key
  | c :: _ => if c.isDigit then "arg_" ++ key else key

/-- Named-group keys contributed by one non-optional token, in stash order
(only `<...>` tokens are stashed; `{...}` becomes a non-capturing group). -/
def bkeys : List BTok → List String
  | [] => []
  | .ang s :: ts => restore_key s :: bkeys ts
  | .angN s :: ts => restore_key s :: bkeys ts
  | _ :: ts => bkeys ts

def tkeys : List TTok → List String
  | [] => []
  | .base b :: ts => bkeys [b] ++ tkeys ts
  | .opt inner :: ts => bkeys inner ++ tkeys ts

/-- Trailing maximal word-character run of a string (the `\b(\w+)` group of
the constant-map scan). -/
def trailWordRun (s : String) : String :=
  String.mk ((s.data.reverse.takeWhile isWordChar).reverse)

/-- One `word <placeholder>` adjacency: the literal must end in a word
character and the placeholder must contain no space (`[^<> ]+`). -/
def constPair (w v : String) : List (String × String) :=
  if trailWordRun w ≠ "" && !(v.data.any fun c => c = ' ') then
    [(v, trailWordRun w)]
  else []

/-- Pairs inside one bracket-free token run. -/
def constPairsB : List BTok → List (String × String)
  | .lit w :: .ang v :: ts => constPair w v ++ constPairsB (.ang v :: ts)
  | .lit w :: .angN v :: ts => constPair w v ++ constPairsB (.angN v :: ts)
  | _ :: ts => constPairsB ts
  | [] => []

/-- The constant map `re.finditer(r"\b(\w+)\s*<([^<> ]+)>", template)`:
`word <placeholder>` adjacencies in string order.  A `[` or `]` between the
word and the `<` blocks the match, so adjacencies are collected at the top
level and inside each optional block separately. -/
def constPairsT : List TTok → List (String × String)
  | [] => []
  | .opt inner :: ts => constPairsB inner ++ constPairsT ts
  | .base (.lit w) :: .base (.ang v) :: ts =>
    constPair w v ++ constPairsT (.base (.ang v) :: ts)
  | .base (.lit w) :: .base (.angN v) :: ts =>
    constPair w v ++ constPairsT (.base (.angN v) :: ts)
  | .base _ :: ts => constPairsT ts

/-- Python dict lookup where later insertions overwrite earlier ones. -/
def dictGet (l : List (String × String)) (k : String) : Option String :=
  l.reverse.lookup k

/-- Join pattern parts with the `\s+` produced by step 5's global
whitespace substitution. -/
def interWs : List (List RPat) → List RPat
  | [] => []
  | [p] => p
  | p :: ps => p ++ RPat.ws :: interWs ps

/-- A literal text fragment: internal whitespace also became `\s+` in
step 5. -/
def litPats (s : String) : List RPat :=
  interWs ((pyWords s).map fun w => [RPat.lit w])

/-- Split a `{...}` body on `|`, strip each alternative, drop empties
(step 1 of `compile_template`). -/
def splitBar (s : String) : List String :=
  ((splitOnPred (fun c => c = '|') s).map pyStrip).filter (fun x => x ≠ "")

def basePats : BTok → List RPat
  | .lit s => litPats s
  | .ang s => [.cap (restore_key s)]
  | .angN s => [.cap (restore_key s), .lit "..."]
  | .cur s => [.alts (splitBar s)]

/-- Compile one token.  An optional block `[ ... ]` becomes `(?:...)?` with
the block's internal separators inside the group; the separator BETWEEN the
block and its neighbours is the top-level `\s+` placed by `interWs` — in
the source the space before `[` sits outside the bracket text, so step 5
turns it into a mandatory `\s+` outside the optional group. -/
def tokPats : TTok → List RPat
  | .base b => basePats b
  | .opt inner => [.opt (interWs (inner.map basePats))]

def litOkB : BTok → Bool
  | .lit s => plainLit s
  | .ang _ => true
  | .angN _ => false
  | .cur s => (splitBar s).all plainLit

def litOkT : TTok → Bool
  | .base b => litOkB b
  | .opt inner => inner.all litOkB

def nodupB : List String → Bool
  | [] => true
  | x :: xs => !(xs.contains x) && nodupB xs

/-- One compiled grammar rule of cmd_parser.py: verb, object, template
tokens, the compiled (always whole-line, IGNORECASE) pattern, the declared
named groups in definition order, and the constant map. -/
structure CRule where
  verb : String
  obj : String
  toks : List TTok
  pats : List RPat
  groups : List String
  const_map : List (String × String)

instance : Inhabited CRule := ⟨⟨"", "", [], [], [], []⟩⟩

/-- `compile_template` of cmd_parser.py on a canonical template.  Returns
`none` where `re.compile` would reject the emitted pattern (duplicate group
names) or where literal text falls outside the metacharacter-free fragment
this embedding covers. -/
def compile_template (verb obj : String) (toks : List TTok) : Option CRule :=
  if !(plainLit verb && plainLit obj) then none
  else if !(toks.all litOkT) then none
  else if !(nodupB (tkeys toks)) then none
  else some
    { verb := verb, obj := obj, toks := toks
      pats := interWs ([litPats verb, litPats obj] ++ toks.map tokPats)
      groups := tkeys toks
      const_map := constPairsT toks }

/-- One parsed record: `{"verb": ..., "object": ..., "args": ...}` in the
flat (`NESTED = False`) serialization the source is configured for.  `args`
keeps the named groups in definition order; a group that did not
participate in the match carries `none` (Python `None`). -/
structure CRec where
  verb : String
  obj : String
  args : List (String × Option String)
deriving DecidableEq

/-- Flat output key: `placeholder\constantword` when the constant map links
the group, else the bare group key.  The constant map is keyed by the RAW
placeholder text while groupdict is keyed by the sanitized key, exactly as
in the source. -/
def flatKey (cm : List (String × String)) (k : String) : String :=
  match dictGet cm k with
  | some w => k ++ "\\" ++ w
  | none => k

def mkRecord (r : CRule) (caps : Caps) : CRec :=
  { verb := r.verb, obj := r.obj
    args := r.groups.map fun k => (flatKey r.const_map k, caps.lookup k) }

/-- Try one rule's anchored pattern against the (stripped) command. -/
def tryRule (cs : List Char) (r : CRule) : Option Caps :=
  runPats true r.pats cs

def parse_scan (cs : List Char) : List CRule → Option CRec
  | [] => none
  | r :: g =>
    match tryRule cs r with
    | some caps => some (mkRecord r caps)
    | none => parse_scan cs g

/-- `parse_command` of cmd_parser.py: strip the line, try each rule in
grammar order, return the first full match's record, else `None`. -/
def parse_command (cmd : String) (grammar : List CRule) : Option CRec :=
  parse_scan (pyStripL cmd.data) grammar

/-- One Excel grammar row as `load_grammar` sees it after forward-fill:
`None` models a missing (`isna`) cell. -/
structure GRow where
  verb_field : Option String
  obj : Option String
  template : Option (List TTok)

def chineseChar (c : Char) : Bool := 0x4e00 ≤ c.toNat && c.toNat ≤ 0x9fff
def hasChineseS (s : String) : Bool := s.data.any chineseChar

def hasChineseB : BTok → Bool
  | .lit s => hasChineseS s
  | .ang s => hasChineseS s
  | .angN s => hasChineseS s
  | .cur s => hasChineseS s

def hasChineseT : TTok → Bool
  | .base b => hasChineseB b
  | .opt inner => inner.any hasChineseB

def splitVerbs (s : String) : List String :=
  ((splitOnPred (fun c => c = '/' || c = '|' || c = ',') s).map pyStrip).filter
    (fun v => v ≠ "")

def firstLowerAlpha (s : String) : Bool :=
  match s.data with
  | [] => false
  | c :: _ => 'a' ≤ c && c ≤ 'z'

/-- Rules contributed by one row of `load_grammar`: skip rows with missing
cells, lowercase the verb field, require a leading letter, skip Chinese
templates, split verb aliases on `/|,`, and skip any alias whose compile
raises `re.error`. -/
def rowRules (row : GRow) : List CRule :=
  match row.verb_field, row.obj, row.template with
  | some vf0, some ob, some toks =>
    let vf := toLowerStr (pyStrip vf0)
    if !(firstLowerAlpha vf) then []
    else if toks.any hasChineseT then []
    else (splitVerbs vf).filterMap fun v => compile_template v (pyStrip ob) toks
  | _, _, _ => []

/-- The grammar list `load_grammar` accumulates, in declaration order. -/
def loadGrammarL (rows : List GRow) : List CRule :=
  (rows.map rowRules).flatten

/-- `load_grammar`, including the final empty-grammar `RuntimeError`. -/
def load_grammar (rows : List GRow) : Except String (List CRule) :=
  match loadGrammarL rows with
  | [] => .error "no valid grammar"
  | g => .ok g

/-- Modelled from the spec: the specificity score
`3 × (#mandatory literal tokens) + 1 × (#variable/optional tokens)` of
section 3 / 4.5.  No function in the source computes any score; this
definition exists to compare the spec's ranking claim with the code. -/
def specScore (toks : List TTok) : Nat :=
  let mand := toks.countP fun t =>
    match t with
    | .base (.lit _) => true
    | _ => false
  let varOpt := toks.countP fun t =>
    match t with
    | .base (.lit _) => false
    | _ => true
  3 * mand + varOpt

end CmdP

/-! ## transf.py -/

namespace Transf

/-- `NEED_ESCAPE` of transf.py: the characters `escape_lit` prefixes with a
backslash. -/
def needEscape (c : Char) : Bool :=
  c = '.' || c = '^' || c = '$' || c = '*' || c = '+' || c = '?' || c = '(' ||
  c = ')' || c = '[' || c = '\x7b' || c = '\\' || c = '|'

/-- `escape_lit`: escape regex metacharacters inside literal CLI tokens. -/
def escape_lit (s : String) : String :=
  String.mk ((s.data.map fun c => if needEscape c then ['\\', c] else [c]).flatten)

/-- Python `re.escape` (the modern special-character set). -/
def reEscape (s : String) : String :=
  String.mk ((s.data.map fun c =>
    if isWordChar c then [c]
    else if isSpaceChar c then ['\\', c]
    else ['\\', c]).flatten)

def toUpperStr (s : String) : String := String.mk (s.data.map Char.toUpper)

/-- Collapse every maximal run of whitespace or commas to one underscore
(`re.sub(r"[\s,]+", "_", ·)`). -/
def slugCollapseGo : Bool → List Char → List Char
  | _, [] => []
  | prev, c :: cs =>
    if isSpaceChar c || c = ',' then
      if prev then slugCollapseGo true cs else '_' :: slugCollapseGo true cs
    else c :: slugCollapseGo false cs

def stripUnderscores (cs : List Char) : List Char :=
  ((cs.dropWhile (fun c => c = '_')).reverse.dropWhile (fun c => c = '_')).reverse

/-- `slug` of transf.py: TextFSM variable name from slot text.  A choice
slot is always named `OPTION`. -/
def slug (name : String) (is_choice : Bool) : String :=
  if is_choice then "OPTION"
  else
    let s1 := slugCollapseGo false name.data
    let s2 := stripUnderscores ((s1.filter isWordChar).map Char.toUpper)
    let s3 := if s2.isEmpty then "VAR" else String.mk s2
    match s3.data with
    | c :: _ => if c.isDigit then "V_" ++ s3 else s3
    | [] => s3

/-- `get_unique_var_name`: bump the per-name counter, suffixing `_n` from
the second occurrence on. -/
def bumpName (counts : List (String × Nat)) (base : String) :
    String × List (String × Nat) :=
  let n := (counts.lookup base).getD 0 + 1
  let counts' := (base, n) :: counts.filter (fun p => p.1 ≠ base)
  (if n > 1 then base ++ "_" ++ toString n else base, counts')

/-- `${NAME}` reference in a TextFSM pattern. -/
def dollarV (v : String) : String := "$\x7b" ++ v ++ "\x7d"

/-- One entry of the structured `token_templates` metadata (the dicts
conv_tokens appends). -/
structure TokTmpl where
  type : String
  name : Option String := none
  value : Option String := none
  options : Option (List String) := none
  is_list : Bool := false
  is_optional : Bool := false
deriving DecidableEq

/-- Accumulated state of `conv_tokens`.  Each part carries both the pattern
text conv_tokens emits and the pattern AST that text denotes (after the
`Value` regexes are substituted for their `${NAME}` references), built in
lockstep so the two views cannot diverge. -/
structure ConvOut where
  parts : List (String × List RPat) := []
  vars : List String := []
  tts : List TokTmpl := []
  vmap : List (String × String) := []
  counts : List (String × Nat) := []

def splitBarRaw (s : String) : List String := splitOnPred (fun c => c = '|') s

/-- One non-optional-block token of `conv_tokens`. -/
def convStep (isOpt : Bool) (acc : ConvOut) : BTok → ConvOut
  | .lit s =>
    if s = "" || (s.data ≠ [] && s.data.all isSpaceChar) then acc
    else if isOpt then
      let (kw, counts') := bumpName acc.counts ("OPT_KW_" ++ slug s false)
      { acc with
        parts := acc.parts ++ [(dollarV kw, [RPat.capChoice kw [s]])]
        vars := acc.vars ++ [kw]
        tts := acc.tts ++ [{ type := "keyword", name := some kw, value := some s,
                             is_optional := true }]
        vmap := acc.vmap ++ [(kw, escape_lit s)]
        counts := counts' }
    else
      { acc with
        parts := acc.parts ++ [(escape_lit s, [RPat.lit s])]
        tts := acc.tts ++ [{ type := "keyword", value := some s }] }
  | .angN s =>
    let content := pyStrip s
    let (nm, counts') := bumpName acc.counts (slug content false)
    { acc with
      parts := acc.parts ++ [(dollarV nm, [RPat.cap nm])]
      vars := acc.vars ++ [nm]
      tts := acc.tts ++ [{ type := "variable", name := some nm, is_list := true,
                           is_optional := isOpt }]
      vmap := acc.vmap ++ [(nm, "\\S+")]
      counts := counts' }
  | .ang s =>
    let content := pyStrip s
    let is_choice := content.data.contains '|'
    let (nm, counts') := bumpName acc.counts (slug content is_choice)
    let options := (splitBarRaw content).map pyStrip
    { acc with
      parts := acc.parts ++
        [(dollarV nm, [if is_choice then RPat.capChoice nm options else RPat.cap nm])]
      vars := acc.vars ++ [nm]
      tts := acc.tts ++ [{ type := "variable", name := some nm,
                           options := if is_choice then some options else none,
                           is_optional := isOpt }]
      vmap := acc.vmap ++
        [(nm, if is_choice then
                "(" ++ String.intercalate "|" (options.map reEscape) ++ ")"
              else "\\S+")]
      counts := counts' }
  | .cur s =>
    let content := pyStrip s
    let is_choice := content.data.contains '|'
    let (nm, counts') := bumpName acc.counts (slug content is_choice)
    let options := (splitBarRaw content).map pyStrip
    { acc with
      parts := acc.parts ++
        [(dollarV nm, [if is_choice then RPat.capChoice nm options else RPat.cap nm])]
      vars := acc.vars ++ [nm]
      tts := acc.tts ++ [{ type := "variable", name := some nm,
                           options := if is_choice then some options else none,
                           is_optional := isOpt }]
      vmap := acc.vmap ++
        [(nm, if is_choice then
                "(" ++ String.intercalate "|" (options.map reEscape) ++ ")"
              else "\\S+")]
      counts := counts' }

/-- `conv_tokens` on the tokens inside one optional block (the recursive
call with `is_optional=True`; blocks do not nest, per the tokenizer's
`\[[^\]]+\]`). -/
def convInner (counts : List (String × Nat)) (inner : List BTok) : ConvOut :=
  inner.foldl (convStep true) { counts := counts }

def joinPartsStr (parts : List (String × List RPat)) : String :=
  String.intercalate "\\s+" (parts.map Prod.fst)

def joinPartsPats (parts : List (String × List RPat)) : List RPat :=
  CmdP.interWs (parts.map Prod.snd)

/-- The optional-block case of `conv_tokens`: the sub-pattern is appended to
the PREVIOUS part as `(?:\s+...)?` — the separator lives inside the optional
group — or wrapped as `(?:...)?` when the block is first. -/
def convOptBlock (acc : ConvOut) (inner : List BTok) : ConvOut :=
  let sub := convInner acc.counts inner
  let subStr := joinPartsStr sub.parts
  let subPats := joinPartsPats sub.parts
  let parts' :=
    match acc.parts.getLast? with
    | some (lastS, lastP) =>
      acc.parts.dropLast ++
        [(lastS ++ "(?:\\s+" ++ subStr ++ ")?", lastP ++ [RPat.opt (RPat.ws :: subPats)])]
    | none => [("(?:" ++ subStr ++ ")?", [RPat.opt subPats])]
  { parts := parts'
    vars := acc.vars ++ sub.vars
    tts := acc.tts ++ sub.tts
    vmap := acc.vmap ++ sub.vmap
    counts := sub.counts }

def convT (acc : ConvOut) : List TTok → ConvOut
  | [] => acc
  | .base b :: ts => convT (convStep false acc b) ts
  | .opt inner :: ts => convT (convOptBlock acc inner) ts

/-- `conv_tokens` at the top level (fresh counter dict, not optional). -/
def conv_tokens (toks : List TTok) : ConvOut := convT {} toks

/-! String search helpers for the anchor splice. -/

def isPre : List Char → List Char → Bool
  | [], _ => true
  | _ :: _, [] => false
  | a :: as, b :: bs => a = b && isPre as bs

def occGo (needle : List Char) : Nat → List Char → List Nat
  | i, [] => if needle.isEmpty then [i] else []
  | i, c :: cs =>
    (if isPre needle (c :: cs) then [i] else []) ++ occGo needle (i + 1) cs

/-- Positions at which `needle` occurs in `hay`. -/
def occIdx (needle hay : List Char) : List Nat := occGo needle 0 hay

def isSubstr (needle hay : String) : Bool := !(occIdx needle.data hay.data).isEmpty

/-- Python `hay.rsplit(needle, 1)` when it actually splits: cut at the LAST
occurrence of `needle` as a substring. -/
def rsplitOnce (hay needle : String) : Option (String × String) :=
  match (occIdx needle.data hay.data).getLast? with
  | some i =>
    some (String.mk (hay.data.take i), String.mk (hay.data.drop (i + needle.data.length)))
  | none => none

def dedupGo (seen : List String) : List String → List String
  | [] => []
  | x :: xs => if seen.contains x then dedupGo seen xs else x :: dedupGo (x :: seen) xs

def dedupStrs (l : List String) : List String := dedupGo [] l

/-- Lexicographic code-point comparison (Python string `sorted`). -/
def strLtB (a b : String) : Bool :=
  let rec go : List Char → List Char → Bool
    | [], [] => false
    | [], _ :: _ => true
    | _ :: _, [] => false
    | x :: xs, y :: ys => if x = y then go xs ys else decide (x.toNat < y.toNat)
  go a.data b.data

def insertSorted (x : String) : List String → List String
  | [] => [x]
  | y :: ys => if strLtB x y then x :: y :: ys else y :: insertSorted x ys

def sortStrs : List String → List String
  | [] => []
  | x :: xs => insertSorted x (sortStrs xs)

/-- `sorted(list(set(l)))`. -/
def sortedUnique (l : List String) : List String := sortStrs (dedupStrs l)

/-- Rightmost `arg_token_templates` entry that is a non-optional keyword,
with its index (the anchor scan of `build_template`). -/
def lastMandKw : List TokTmpl → Option (Nat × String)
  | [] => none
  | t :: ts =>
    match lastMandKw ts with
    | some (i, v) => some (i + 1, v)
    | none =>
      if t.type = "keyword" && !t.is_optional then some (0, (t.value).getD "")
      else none

/-- Everything `build_template` computes: the written template text plus the
intermediate values the theorems talk about. -/
structure BuildOut where
  content : String
  vlist : List String
  arg_tts : List TokTmpl
  naive : String
  final_pattern : String
  value_lines : List String

/-- `build_template` of transf.py on the token form of
`f"{verb} {obj} {tpl}"`.  `verbN`/`objN` are the TOKEN_PATTERN token counts
of verb and object (1 each for the plain single-word names in scope). -/
def build_template (toks : List TTok) (verbN objN : Nat) (tpl_id : String) :
    BuildOut :=
  let out := conv_tokens toks
  let pattern := joinPartsStr out.parts
  let arg_tts := out.tts.drop (verbN + objN)
  let value_lines0 := (dedupStrs out.vars).map fun v =>
    "Value " ++ v ++ " (" ++ ((out.vmap.lookup v).getD "\\S+") ++ ")"
  let anchored :=
    match lastMandKw arg_tts with
    | some (_i, v) =>
      let lit := escape_lit v
      if out.vars.any (fun w => isSubstr (dollarV w) lit) then
        (pattern, value_lines0, out.vars)
      else
        let nm0 := "ANCHOR_" ++ toUpperStr (slug v false)
        let nm := if out.vars.contains nm0 then nm0 ++ "_2" else nm0
        let vls := value_lines0 ++ ["Value " ++ nm ++ " (" ++ lit ++ ")"]
        match rsplitOnce pattern lit with
        | some (before, after) => (before ++ dollarV nm ++ after, vls, out.vars ++ [nm])
        | none => (pattern, vls, out.vars)
    | none => (pattern, value_lines0, out.vars)
  let lines := ("# Auto-generated " ++ tpl_id) :: sortedUnique anchored.2.1 ++
    [""] ++ ["Start", "  ^" ++ anchored.1 ++ "\\s*$$ -> Record"]
  { content := String.intercalate "\n" lines ++ "\n"
    vlist := anchored.2.2
    arg_tts := arg_tts
    naive := pattern
    final_pattern := anchored.1
    value_lines := anchored.2.1 }

/-- The whole-line pattern AST of a NOT-anchored (naive) transf rule:
`^ body \s*$$` with the `Value` regexes substituted. -/
def naivePats (toks : List TTok) : List RPat :=
  joinPartsPats (conv_tokens toks).parts ++ [RPat.wss]

/-! `parse_row` of transf.py. -/

/-- One sheet row as `parse_row` receives it (columns B, C, D and the
strikethrough flag of the args cell). -/
structure XRow where
  verb : Option String
  obj : Option String
  tpl : Option String
  strike : Bool

/-- Collapse runs of CR/LF to a single space (`re.sub(r"[\r\n]+", " ", ·)`). -/
def crlfGo : Bool → List Char → List Char
  | _, [] => []
  | prev, c :: cs =>
    if c = '\n' || c = '\x0d' then
      if prev then crlfGo true cs else ' ' :: crlfGo true cs
    else c :: crlfGo false cs

def collapseCrlf (s : String) : String := String.mk (crlfGo false s.data)

/-- Try `<([^:>]+):[^>]+>` at the head of the input. -/
def descMatch : List Char → Option (List Char × List Char)
  | '<' :: rest =>
    let p1 := rest.takeWhile fun c => c ≠ ':' && c ≠ '>'
    match p1, rest.drop p1.length with
    | [], _ => none
    | _, ':' :: r2 =>
      let p2 := r2.takeWhile fun c => c ≠ '>'
      match p2, r2.drop p2.length with
      | [], _ => none
      | _, '>' :: r4 => some (p1, r4)
      | _, _ => none
    | _, _ => none
  | _ => none

/-- `re.sub(r"<([^:>]+):[^>]+>", r"<\1>", ·)`: strip human-readable variable
descriptions.  Fuel is the input length, which bounds the number of emitted
characters' source positions. -/
def stripDescGo : Nat → List Char → List Char
  | 0, cs => cs
  | _ + 1, [] => []
  | f + 1, c :: cs =>
    match descMatch (c :: cs) with
    | some (name, rest) => '<' :: (name ++ '>' :: stripDescGo f rest)
    | none => c :: stripDescGo f cs

def stripDesc (s : String) : String := String.mk (stripDescGo s.data.length s.data)

/-- `has_chinese` of transf.py. -/
def has_chinese (s : String) : Bool := s.data.any CmdP.chineseChar

/-- Continuation fill-in: a truthy cell's stripped text, else the previous
row's carried value (`str(cell.value).strip() if cell.value else prev`). -/
def carryCell (cell : Option String) (prev : Option String) : Option String :=
  match cell with
  | some v => if v = "" then prev else some (pyStrip v)
  | none => prev

/-- `parse_row`: zero or more (verb, obj, tpl) records from one sheet row,
with verb/object carry-over, comment/strikethrough/Chinese/`show`
filtering, and slash-verb splitting. -/
def parse_row (row : XRow) (prev_v prev_o : Option String) :
    List (String × String × String) :=
  let tpl_val := match row.tpl with
    | none => ""
    | some t => pyStrip t
  if tpl_val = "" || tpl_val.startsWith "##" then []
  else if row.strike then []
  else
    let tpl := stripDesc (pyStrip (collapseCrlf tpl_val))
    match carryCell row.verb prev_v, carryCell row.obj prev_o with
    | some verb, some obj =>
      if verb = "" || obj = "" || tpl = "" then []
      else if toLowerStr verb = "show" || has_chinese (verb ++ obj ++ tpl) then []
      else
        (((splitOnPred (fun c => c = '/') verb).map pyStrip).filter
          (fun v => v ≠ "")).map fun v => (v, obj, tpl)
    | _, _ => []

end Transf

/-! ## parser.py (the TextFSM-template route) -/

namespace ParserPy

/-- The capture group of `SPECIAL_CHARS` in parser.py (note: `*` is NOT in
the set). -/
def specialP (c : Char) : Bool :=
  c = '\\' || c = '^' || c = '$' || c = '.' || c = '+' || c = '?' ||
  c = '\x7b' || c = '\x7d' || c = '[' || c = ']' || c = '|' || c = '(' || c = ')'

/-- `_escape` of parser.py.  The replacement string `r"\\\\\1"` places TWO
literal backslashes before the matched character. -/
def escP (s : String) : String :=
  String.mk ((s.data.map fun c => if specialP c then ['\\', '\\', c] else [c]).flatten)

def normalize_var (s : String) : String :=
  Transf.toUpperStr (String.mk ((pyStrip s).data.map fun c => if c = '-' then '_' else c))

/- `TOK_SPLIT.split`: split on whitespace runs and on `,`/`~`, keeping the
separators as tokens (`re.split` with a capturing group, so empty fields
between adjacent separators are kept). -/
mutual
def tokSplitGo (cur : List Char) : List Char → List String
  | [] => [String.mk cur.reverse]
  | c :: cs =>
    if c = ',' || c = '~' then
      String.mk cur.reverse :: String.singleton c :: tokSplitGo [] cs
    else if isSpaceChar c then
      String.mk cur.reverse :: wsRun [c] cs
    else tokSplitGo (c :: cur) cs

def wsRun (run : List Char) : List Char → List String
  | [] => [String.mk run.reverse, ""]
  | c :: cs =>
    if isSpaceChar c then wsRun (c :: run) cs
    else if c = ',' || c = '~' then
      String.mk run.reverse :: "" :: String.singleton c :: tokSplitGo [] cs
    else String.mk run.reverse :: tokSplitGo [c] cs
end

def tokSplit (s : String) : List String := tokSplitGo [] s.data

/-- `ANG_BR.match`: full match of `^<([^>]+)>$`, returning the interior. -/
def angMatch (tok : String) : Option String :=
  match tok.data with
  | '<' :: rest =>
    match rest.getLast? with
    | some '>' =>
      let inner := rest.dropLast
      if inner ≠ [] && inner.all (fun c => c ≠ '>') then some (String.mk inner)
      else none
    | _ => none
  | _ => none

/-- `CURLY.match`: full match of `^{([^}]+)}$`, returning the interior. -/
def curMatch (tok : String) : Option String :=
  match tok.data with
  | '\x7b' :: rest =>
    match rest.getLast? with
    | some '\x7d' =>
      let inner := rest.dropLast
      if inner ≠ [] && inner.all (fun c => c ≠ '\x7d') then some (String.mk inner)
      else none
    | _ => none
  | _ => none

/-- One element of a branch: `("LIT", tok)`, `("VAR", name)`, or
`("KWCHOICE", choices)`. -/
inductive PKind where
  | LIT (s : String)
  | VAR (s : String)
  | KWCHOICE (cs : List String)
deriving DecidableEq

/-- The branch-expansion loop of `_expand_template`: a `<A|B|C>` token
multiplies the branch list by its variants (branch-major order). -/
def expandStep (branches : List (List PKind)) (tok : String) : List (List PKind) :=
  if tok = "" then branches
  else if (tok.data.all isSpaceChar) || tok = "," || tok = "~" then
    branches.map fun b => b ++ [.LIT tok]
  else
    match angMatch tok with
    | some inner =>
      if inner.data.contains '|' then
        let variants := Transf.splitBarRaw inner
        (branches.map fun b => variants.map fun v => b ++ [.VAR v]).flatten
      else branches.map fun b => b ++ [.VAR inner]
    | none =>
      match curMatch tok with
      | some inner => branches.map fun b => b ++ [.KWCHOICE (Transf.splitBarRaw inner)]
      | none => branches.map fun b => b ++ [.LIT tok]

def expandToks (tokens : List String) : List (List PKind) :=
  tokens.foldl expandStep [[]]

/-- Per-branch TextFSM text generation loop state. -/
structure BrSt where
  values : List String := []
  lines_value : List String := []
  body : List String := []
  kw_counter : Nat := 1

def brStep (st : BrSt) : PKind → BrSt
  | .LIT s => { st with body := st.body ++ [escP s] }
  | .VAR s =>
    let var := normalize_var s
    let st' :=
      if st.values.contains var then st
      else { st with
             lines_value := st.lines_value ++ ["Value " ++ var ++ " (\\S+)"]
             values := st.values ++ [var] }
    { st' with body := st'.body ++ [Transf.dollarV var] }
  | .KWCHOICE cs =>
    let kw := "KEYWORD_" ++ toString st.kw_counter
    let pat := String.intercalate "|" (cs.map escP)
    let st' :=
      if st.values.contains kw then { st with kw_counter := st.kw_counter + 1 }
      else { st with
             kw_counter := st.kw_counter + 1
             lines_value := st.lines_value ++ ["Value " ++ kw ++ " (" ++ pat ++ ")"]
             values := st.values ++ [kw] }
    { st' with body := st'.body ++ [Transf.dollarV kw] }

def branchTmpl (verb obj : String) (br : List PKind) : String :=
  let st := br.foldl brStep {}
  let pfx := verb ++ " " ++ obj ++ " "
  let pattern_line := "  ^" ++ escP pfx ++ String.join st.body ++ "$$ -> Record"
  String.intercalate "\n" st.lines_value ++ "\n\nStart\n" ++ pattern_line ++ "\n"

/-- `_expand_template`: one TextFSM template text per branch. -/
def expand_template (verb obj tmpl : String) : List String :=
  (expandToks (tokSplit tmpl)).map (branchTmpl verb obj)

/-- One raw sheet row of `compile_excel_to_templates` (class column
unused). -/
structure PRow where
  verb : Option String
  obj : Option String
  tmpl : Option String

/-- `df.ffill` on the verb/object columns. -/
def ffillRows (pv po : Option String) : List PRow → List PRow
  | [] => []
  | r :: rs =>
    let v := match r.verb with | some x => some x | none => pv
    let o := match r.obj with | some x => some x | none => po
    { verb := v, obj := o, tmpl := r.tmpl } :: ffillRows v o rs

/-- `%04d`. -/
def pad4 (n : Nat) : String :=
  let s := toString n
  String.mk (List.replicate (4 - s.length) '0') ++ s

/-- The compile loop: per kept row, skip `show` verbs, split `/`-verbs, and
write one `{counter:04d}_{vb}_{obj}.template` file per expanded branch. -/
def compileRowsGo : Nat → List PRow → List (String × String)
  | _, [] => []
  | counter, row :: rest =>
    match row.tmpl with
    | none => compileRowsGo counter rest
    | some tmpl0 =>
      if Transf.has_chinese tmpl0 then compileRowsGo counter rest
      else
        let verb := pyStrip ((row.verb).getD "nan")
        if toLowerStr verb = "show" then compileRowsGo counter rest
        else
          let obj := pyStrip ((row.obj).getD "nan")
          let tmpl := pyStrip tmpl0
          let files := (((splitOnPred (fun c => c = '/') verb).map pyStrip).map
            fun vb => (expand_template vb obj tmpl).map fun t => (vb, t)).flatten
          let named := files.enum.map fun p =>
            (pad4 (counter + p.1) ++ "_" ++ p.2.1 ++ "_" ++ obj ++ ".template", p.2.2)
          named ++ compileRowsGo (counter + files.length) rest

/-- `compile_excel_to_templates` (the filename/content pairs it writes). -/
def compile_excel (rows : List PRow) : List (String × String) :=
  compileRowsGo 0 (ffillRows none none rows)

end ParserPy

/-! ## parser_Check.py -/

namespace PCheck

/-- Replace each maximal whitespace run with one space. -/
def collapseGo : Bool → List Char → List Char
  | _, [] => []
  | prev, c :: cs =>
    if isSpaceChar c then
      if prev then collapseGo true cs else ' ' :: collapseGo true cs
    else c :: collapseGo false cs

/-- `normalize_space`: `re.sub(r'\s+', ' ', text).strip()`. -/
def normalize_space (s : String) : String :=
  pyStrip (String.mk (collapseGo false s.data))

/-- One entry of a record's `arg_tokens` list (only the `value` field is
read by the verifier; `None` models a JSON null or a missing field). -/
structure TokenJson where
  value : Option String
deriving DecidableEq

structure RecordJson where
  verb : String
  obj : String
  arg_tokens : List TokenJson
deriving DecidableEq

/-- `reassemble_command`: verb, object, then every token value that is
neither null (`None`) nor the empty string, single-space joined and
whitespace-normalized. -/
def reassemble_command (j : RecordJson) : String :=
  normalize_space (String.intercalate " "
    ([j.verb, j.obj] ++ j.arg_tokens.filterMap fun t =>
      match t.value with
      | none => none
      | some v => if v = "" then none else some v))

end PCheck

/-! ## The record builder (round-trip model)

Modelled from the spec: the runtime component that maps a rule's captured
values onto its declared slot order and serializes
`{verb, object, arg_tokens}` records (spec section 4.7 / section 6) is not
among the source files — only its verifier (`parser_Check.py`) and the slot
metadata generator (`transf.py`) are.  `ASlot` is the spec's ArgumentSlot,
`matchSlots` the token-level whole-line matcher with present-first optional
slots, and `buildRecord` the Record Builder. -/

namespace RT

/-- Modelled from the spec: ArgumentSlot — literal keyword, variable, or
choice, each with an optional flag (spec section 3). -/
inductive ASlot where
  | kw (value : String) (opt : Bool)
  | var (name : String) (opt : Bool)
  | choice (name : String) (options : List String) (opt : Bool)
deriving DecidableEq

/-- Modelled from the spec: whole-line token matcher.  A keyword slot
consumes exactly its keyword, a variable slot any one token, a choice slot
one of its allowed values; an optional slot tries to be present first and
falls back to absent (the greedy `(?:...)?` order); the whole token list
must be consumed. -/
def matchSlots : List ASlot → List String → Option (List (ASlot × Option String))
  | [], [] => some []
  | [], _ :: _ => none
  | .kw v false :: ss, t :: ts =>
    if t = v then (matchSlots ss ts).map (fun r => (.kw v false, some v) :: r) else none
  | .kw _ false :: _, [] => none
  | .kw v true :: ss, ts =>
    Option.orElse
      (match ts with
       | t :: ts' =>
         if t = v then (matchSlots ss ts').map (fun r => (.kw v true, some v) :: r)
         else none
       | [] => none)
      fun _ => (matchSlots ss ts).map (fun r => (.kw v true, none) :: r)
  | .var n false :: ss, t :: ts =>
    (matchSlots ss ts).map (fun r => (.var n false, some t) :: r)
  | .var _ false :: _, [] => none
  | .var n true :: ss, ts =>
    Option.orElse
      (match ts with
       | t :: ts' => (matchSlots ss ts').map (fun r => (.var n true, some t) :: r)
       | [] => none)
      fun _ => (matchSlots ss ts).map (fun r => (.var n true, none) :: r)
  | .choice n os false :: ss, t :: ts =>
    if os.contains t then
      (matchSlots ss ts).map (fun r => (.choice n os false, some t) :: r)
    else none
  | .choice _ _ false :: _, [] => none
  | .choice n os true :: ss, ts =>
    Option.orElse
      (match ts with
       | t :: ts' =>
         if os.contains t then
           (matchSlots ss ts').map (fun r => (.choice n os true, some t) :: r)
         else none
       | [] => none)
      fun _ => (matchSlots ss ts).map (fun r => (.choice n os true, none) :: r)

/-- Modelled from the spec: the Record Builder — captured values in declared
slot order, explicit `none` for an absent optional (spec section 4.7). -/
def buildRecord (verb obj : String) (r : List (ASlot × Option String)) :
    PCheck.RecordJson :=
  { verb := verb, obj := obj, arg_tokens := r.map fun p => { value := p.2 } }

/-- A well-formed line token: nonempty and whitespace-free (a token of a
real input line). -/
def tokOk (t : String) : Prop := t ≠ "" ∧ t.data.all (fun c => !isSpaceChar c) = true

/-- The lines a rule generates: one constructor per slot kind and
presence/absence decision.  `Gen ss ts` says token list `ts` arises from
slot list `ss` under some combination of present/absent optional slots and
well-formed captured values. -/
inductive Gen : List ASlot → List String → Prop where
  | nil : Gen [] []
  | kw {v ss ts} (b : Bool) : tokOk v → Gen ss ts → Gen (.kw v b :: ss) (v :: ts)
  | kwSkip {v ss ts} : Gen ss ts → Gen (.kw v true :: ss) ts
  | var {n t ss ts} (b : Bool) : tokOk t → Gen ss ts → Gen (.var n b :: ss) (t :: ts)
  | varSkip {n ss ts} : Gen ss ts → Gen (.var n true :: ss) ts
  | choice {n os t ss ts} (b : Bool) : tokOk t → os.contains t = true →
      Gen ss ts → Gen (.choice n os b :: ss) (t :: ts)
  | choiceSkip {n os ss ts} : Gen ss ts → Gen (.choice n os true :: ss) ts

end RT

/-! ## General lemmas -/

lemma flatten_map_append {α β : Type} (f : α → List β) (l1 l2 : List α) :
    ((l1 ++ l2).map f).flatten = (l1.map f).flatten ++ (l2.map f).flatten := by
  induction l1 with
  | nil => simp
  | cons a l ih => simp [ih]

lemma loadGrammarL_append (rows1 rows2 : List CmdP.GRow) :
    CmdP.loadGrammarL (rows1 ++ rows2) =
      CmdP.loadGrammarL rows1 ++ CmdP.loadGrammarL rows2 := by
  simp [CmdP.loadGrammarL, flatten_map_append]

lemma parse_scan_eq_none {cs : List Char} {g : List CmdP.CRule}
    (h : ∀ r ∈ g, CmdP.tryRule cs r = none) : CmdP.parse_scan cs g = none := by
  induction g with
  | nil => rfl
  | cons r g ih =>
    have hr := h r (by simp)
    simp only [CmdP.parse_scan, hr]
    exact ih fun r' hr' => h r' (by simp [hr'])

lemma parse_scan_append {cs : List Char} {g1 g2 : List CmdP.CRule} {r : CmdP.CRule}
    {caps : Caps} (h1 : ∀ r' ∈ g1, CmdP.tryRule cs r' = none)
    (h2 : CmdP.tryRule cs r = some caps) :
    CmdP.parse_scan cs (g1 ++ r :: g2) = some (CmdP.mkRecord r caps) := by
  induction g1 with
  | nil => simp [CmdP.parse_scan, h2]
  | cons x g1 ih =>
    have hx := h1 x (by simp)
    simp only [List.cons_append, CmdP.parse_scan, hx]
    exact ih fun r' hr' => h1 r' (by simp [hr'])

lemma findSome?_some {α β : Type} {f : α → Option β} {l : List α} {b : β}
    (h : l.findSome? f = some b) : ∃ a ∈ l, f a = some b := by
  induction l with
  | nil => simp [List.findSome?] at h
  | cons a l ih =>
    rw [List.findSome?] at h
    cases ha : f a with
    | some v => rw [ha] at h; simp at h; exact ⟨a, by simp, by rw [ha, h]⟩
    | none =>
      rw [ha] at h
      obtain ⟨x, hx, hfx⟩ := ih h
      exact ⟨x, by simp [hx], hfx⟩

lemma mem_greedyLens {i n : Nat} (h : i ∈ greedyLens n) : 0 < i ∧ i ≤ n := by
  simp only [greedyLens, List.mem_map, List.mem_range] at h
  obtain ⟨j, hj, rfl⟩ := h
  omega

/-- Declarative whole-line match relation for the emitted pattern language:
`PMatch ci ps cs` holds exactly when the pattern list can consume the
ENTIRE character list — the base case accepts only the empty rest, which is
the `^...$` anchoring of every compiled rule. -/
inductive PMatch (ci : Bool) : List RPat → List Char → Prop where
  | nil : PMatch ci [] []
  | lit {s : String} {ps cs cs2} : dropLit ci s.data cs = some cs2 →
      PMatch ci ps cs2 → PMatch ci (.lit s :: ps) cs
  | ws {ps cs} (i : Nat) : 0 < i → i ≤ leadCount isSpaceChar cs →
      PMatch ci ps (cs.drop i) → PMatch ci (.ws :: ps) cs
  | wss {ps cs} (i : Nat) : i ≤ leadCount isSpaceChar cs →
      PMatch ci ps (cs.drop i) → PMatch ci (.wss :: ps) cs
  | cap {n ps cs} (i : Nat) : 0 < i → i ≤ leadCount (fun c => !isSpaceChar c) cs →
      PMatch ci ps (cs.drop i) → PMatch ci (.cap n :: ps) cs
  | capChoice {n os ps cs cs2} {o : String} : o ∈ os →
      dropLit ci o.data cs = some cs2 → PMatch ci ps cs2 →
      PMatch ci (.capChoice n os :: ps) cs
  | alts {os ps cs cs2} {o : String} : o ∈ os →
      dropLit ci o.data cs = some cs2 → PMatch ci ps cs2 →
      PMatch ci (.alts os :: ps) cs
  | optYes {inner ps cs} : PMatch ci (inner ++ ps) cs →
      PMatch ci (.opt inner :: ps) cs
  | optNo {inner ps cs} : PMatch ci ps cs → PMatch ci (.opt inner :: ps) cs

/-- A successful run of the backtracking matcher is a whole-line match. -/
lemma matchF_sound (ci : Bool) :
    ∀ (f : Nat) (ps : List RPat) (cs : List Char) (caps : Caps),
      matchF ci f ps cs = some caps → PMatch ci ps cs := by
  intro f
  induction f with
  | zero => intro ps cs caps h; simp [matchF] at h
  | succ f ih =>
    intro ps cs caps h
    cases ps with
    | nil =>
      cases cs with
      | nil => exact PMatch.nil
      | cons c cs => simp [matchF] at h
    | cons p ps =>
      cases p with
      | lit s =>
        simp only [matchF] at h
        cases hd : dropLit ci s.data cs with
        | some cs2 => rw [hd] at h; exact PMatch.lit hd (ih ps cs2 caps h)
        | none => rw [hd] at h; cases h
      | ws =>
        simp only [matchF] at h
        obtain ⟨i, hi, hfi⟩ := findSome?_some h
        obtain ⟨hi1, hi2⟩ := mem_greedyLens hi
        exact PMatch.ws i hi1 hi2 (ih ps (cs.drop i) caps hfi)
      | wss =>
        simp only [matchF] at h
        obtain ⟨i, hi, hfi⟩ := findSome?_some h
        have hi2 : i ≤ leadCount isSpaceChar cs := by
          rcases List.mem_append.mp hi with hi' | hi'
          · exact (mem_greedyLens hi').2
          · simp at hi'; omega
        exact PMatch.wss i hi2 (ih ps (cs.drop i) caps hfi)
      | cap n =>
        simp only [matchF] at h
        obtain ⟨i, hi, hfi⟩ := findSome?_some h
        obtain ⟨hi1, hi2⟩ := mem_greedyLens hi
        obtain ⟨caps', hc', -⟩ := Option.map_eq_some'.mp hfi
        exact PMatch.cap i hi1 hi2 (ih ps (cs.drop i) caps' hc')
      | capChoice n os =>
        simp only [matchF] at h
        obtain ⟨o, ho, hfo⟩ := findSome?_some h
        cases hd : dropLit ci o.data cs with
        | some cs2 =>
          rw [hd] at hfo
          obtain ⟨caps', hc', -⟩ := Option.map_eq_some'.mp hfo
          exact PMatch.capChoice ho hd (ih ps cs2 caps' hc')
        | none => rw [hd] at hfo; cases hfo
      | alts os =>
        simp only [matchF] at h
        obtain ⟨o, ho, hfo⟩ := findSome?_some h
        cases hd : dropLit ci o.data cs with
        | some cs2 => rw [hd] at hfo; exact PMatch.alts ho hd (ih ps cs2 caps hfo)
        | none => rw [hd] at hfo; cases hfo
      | opt inner =>
        simp only [matchF] at h
        cases ha : matchF ci f (inner ++ ps) cs with
        | some c1 => exact PMatch.optYes (ih (inner ++ ps) cs c1 ha)
        | none =>
          rw [ha] at h
          simp only [Option.orElse] at h
          exact PMatch.optNo (ih ps cs caps h)

/-! ## Claim C1 — specificity-ranked rule set -/

def c1RowB : CmdP.GRow := ⟨some "set", some "host", some [.base (.ang "x")]⟩
def c1RowA : CmdP.GRow := ⟨some "set", some "host", some [.base (.lit "foo")]⟩

/-- C1 counterexample.  The claim says the compiled rule set is sorted
descending by `score = 3×mandatory literals + 1×variable/optional tokens`
and that of two rules matching the same line the higher-score rule is tried
first and wins.  In the code no sort exists: rule B (`set host <x>`,
score 1) declared before rule A (`set host foo`, score 3) stays first; on
input `set host foo` BOTH rules match, yet the parse returns B's record
(the capture `x = foo`), not A's (no captures) — the lower-score rule
wins. -/
theorem c1_specificity_counterexample :
    ((CmdP.loadGrammarL [c1RowB, c1RowA]).map fun r => CmdP.specScore r.toks) =
      [1, 3] ∧
    ((CmdP.loadGrammarL [c1RowB, c1RowA]).map fun r =>
      (CmdP.tryRule (pyStripL "set host foo".data) r).isSome) = [true, true] ∧
    CmdP.parse_command "set host foo" (CmdP.loadGrammarL [c1RowB, c1RowA]) =
      some ⟨"set", "host", [("x", some "foo")]⟩ := by decide

/-- C1 (amended): `load_grammar` performs no specificity sort — the
compiled rule set preserves original declaration order (compilation is an
order-preserving row-by-row concatenation), and for a line that several
rules can match, the earliest-declared matching rule's record is returned,
regardless of any score. -/
theorem c1_declaration_order :
    (∀ rows1 rows2 : List CmdP.GRow,
      CmdP.loadGrammarL (rows1 ++ rows2) =
        CmdP.loadGrammarL rows1 ++ CmdP.loadGrammarL rows2) ∧
    (∀ (cmd : String) (g1 g2 : List CmdP.CRule) (r : CmdP.CRule) (caps : Caps),
      (∀ r' ∈ g1, CmdP.tryRule (pyStripL cmd.data) r' = none) →
      CmdP.tryRule (pyStripL cmd.data) r = some caps →
      CmdP.parse_command cmd (g1 ++ r :: g2) = some (CmdP.mkRecord r caps)) :=
  ⟨loadGrammarL_append, fun _cmd _g1 _g2 _r _caps h1 h2 => parse_scan_append h1 h2⟩

/-- C1 amended-claim witness: the amended statement applied at the concrete
two-rule grammar of the counterexample — the earliest-declared rule B wins
on `set host foo`. -/
theorem c1_declaration_order_witness :
    CmdP.loadGrammarL ([c1RowB] ++ [c1RowA]) =
      CmdP.loadGrammarL [c1RowB] ++ CmdP.loadGrammarL [c1RowA] ∧
    CmdP.parse_command "set host foo"
        ([] ++ (CmdP.loadGrammarL [c1RowB]).headI :: CmdP.loadGrammarL [c1RowA]) =
      some (CmdP.mkRecord (CmdP.loadGrammarL [c1RowB]).headI
        [("x", "foo")]) :=
  ⟨c1_declaration_order.1 [c1RowB] [c1RowA],
   c1_declaration_order.2 "set host foo" [] (CmdP.loadGrammarL [c1RowA])
     (CmdP.loadGrammarL [c1RowB]).headI [("x", "foo")]
     (by intro r' hr'; cases hr') (by decide)⟩

/-! ## Claim C2 — round-trip law -/

lemma orElse_eq_some {α : Type} {a : Option α} {b : Unit → Option α} {x : α}
    (h : Option.orElse a b = some x) : a = some x ∨ (a = none ∧ b () = some x) := by
  cases a with
  | some v => left; simpa [Option.orElse] using h
  | none => right; exact ⟨rfl, by simpa [Option.orElse] using h⟩

lemma isSome_orElse {α : Type} {a : Option α} {b : Unit → Option α} :
    (Option.orElse a b).isSome = (a.isSome || (b ()).isSome) := by
  cases a <;> simp [Option.orElse]

/-- Soundness of the slot matcher: the non-absent captured values of a
successful match, read off in slot order, are exactly the consumed line
tokens. -/
lemma matchSlots_sound :
    ∀ (ss : List RT.ASlot) (ts : List String) (r : List (RT.ASlot × Option String)),
      RT.matchSlots ss ts = some r → r.filterMap (fun p => p.2) = ts := by
  intro ss
  induction ss with
  | nil =>
    intro ts r h
    cases ts with
    | nil => simp only [RT.matchSlots] at h; cases h; rfl
    | cons t ts => simp [RT.matchSlots] at h
  | cons s ss ih =>
    intro ts r h
    cases s with
    | kw v b =>
      cases b with
      | false =>
        cases ts with
        | nil => simp [RT.matchSlots] at h
        | cons t ts' =>
          simp only [RT.matchSlots] at h
          by_cases ht : t = v
          · rw [if_pos ht] at h
            obtain ⟨r', hr', rfl⟩ := Option.map_eq_some'.mp h
            simp [List.filterMap_cons, ih ts' r' hr', ht]
          · rw [if_neg ht] at h; cases h
      | true =>
        cases ts with
        | nil =>
          simp only [RT.matchSlots] at h
          rcases orElse_eq_some h with hp | ⟨-, hp⟩
          · cases hp
          · obtain ⟨r', hr', rfl⟩ := Option.map_eq_some'.mp hp
            simp [List.filterMap_cons, ih [] r' hr']
        | cons t ts' =>
          simp only [RT.matchSlots] at h
          rcases orElse_eq_some h with hp | ⟨-, hp⟩
          · by_cases ht : t = v
            · rw [if_pos ht] at hp
              obtain ⟨r', hr', rfl⟩ := Option.map_eq_some'.mp hp
              simp [List.filterMap_cons, ih ts' r' hr', ht]
            · rw [if_neg ht] at hp; cases hp
          · obtain ⟨r', hr', rfl⟩ := Option.map_eq_some'.mp hp
            simp [List.filterMap_cons, ih (t :: ts') r' hr']
    | var n b =>
      cases b with
      | false =>
        cases ts with
        | nil => simp [RT.matchSlots] at h
        | cons t ts' =>
          simp only [RT.matchSlots] at h
          obtain ⟨r', hr', rfl⟩ := Option.map_eq_some'.mp h
          simp [List.filterMap_cons, ih ts' r' hr']
      | true =>
        cases ts with
        | nil =>
          simp only [RT.matchSlots] at h
          rcases orElse_eq_some h with hp | ⟨-, hp⟩
          · cases hp
          · obtain ⟨r', hr', rfl⟩ := Option.map_eq_some'.mp hp
            simp [List.filterMap_cons, ih [] r' hr']
        | cons t ts' =>
          simp only [RT.matchSlots] at h
          rcases orElse_eq_some h with hp | ⟨-, hp⟩
          · obtain ⟨r', hr', rfl⟩ := Option.map_eq_some'.mp hp
            simp [List.filterMap_cons, ih ts' r' hr']
          · obtain ⟨r', hr', rfl⟩ := Option.map_eq_some'.mp hp
            simp [List.filterMap_cons, ih (t :: ts') r' hr']
    | choice n os b =>
      cases b with
      | false =>
        cases ts with
        | nil => simp [RT.matchSlots] at h
        | cons t ts' =>
          simp only [RT.matchSlots] at h
          by_cases ht : os.contains t
          · rw [if_pos ht] at h
            obtain ⟨r', hr', rfl⟩ := Option.map_eq_some'.mp h
            simp [List.filterMap_cons, ih ts' r' hr']
          · rw [if_neg ht] at h; cases h
      | true =>
        cases ts with
        | nil =>
          simp only [RT.matchSlots] at h
          rcases orElse_eq_some h with hp | ⟨-, hp⟩
          · cases hp
          · obtain ⟨r', hr', rfl⟩ := Option.map_eq_some'.mp hp
            simp [List.filterMap_cons, ih [] r' hr']
        | cons t ts' =>
          simp only [RT.matchSlots] at h
          rcases orElse_eq_some h with hp | ⟨-, hp⟩
          · by_cases ht : os.contains t
            · rw [if_pos ht] at hp
              obtain ⟨r', hr', rfl⟩ := Option.map_eq_some'.mp hp
              simp [List.filterMap_cons, ih ts' r' hr']
            · rw [if_neg ht] at hp; cases hp
          · obtain ⟨r', hr', rfl⟩ := Option.map_eq_some'.mp hp
            simp [List.filterMap_cons, ih (t :: ts') r' hr']

/-- Completeness of the slot matcher over generated lines: every
presence/absence combination with well-formed values yields a successful
match. -/
lemma matchSlots_complete {ss : List RT.ASlot} {ts : List String}
    (h : RT.Gen ss ts) : (RT.matchSlots ss ts).isSome = true := by
  induction h with
  | nil => simp [RT.matchSlots]
  | @kw v ss ts b hv hg ih =>
    obtain ⟨r, hr⟩ := Option.isSome_iff_exists.mp ih
    cases b with
    | false => simp [RT.matchSlots, hr]
    | true => simp [RT.matchSlots, hr, isSome_orElse]
  | @kwSkip v ss ts hg ih =>
    obtain ⟨r, hr⟩ := Option.isSome_iff_exists.mp ih
    rw [RT.matchSlots.eq_def]
    cases ts <;> simp [isSome_orElse, hr]
  | @var n t ss ts b hv hg ih =>
    obtain ⟨r, hr⟩ := Option.isSome_iff_exists.mp ih
    cases b with
    | false => simp [RT.matchSlots, hr]
    | true => simp [RT.matchSlots, hr, isSome_orElse]
  | @varSkip n ss ts hg ih =>
    obtain ⟨r, hr⟩ := Option.isSome_iff_exists.mp ih
    rw [RT.matchSlots.eq_def]
    cases ts <;> simp [isSome_orElse, hr]
  | @choice n os t ss ts b hv hmem hg ih =>
    obtain ⟨r, hr⟩ := Option.isSome_iff_exists.mp ih
    have hmem' : t ∈ os := by simpa using hmem
    cases b with
    | false => simp [RT.matchSlots, hmem, hmem', hr]
    | true => simp [RT.matchSlots, hmem, hmem', hr, isSome_orElse]
  | @choiceSkip n os ss ts hg ih =>
    obtain ⟨r, hr⟩ := Option.isSome_iff_exists.mp ih
    rw [RT.matchSlots.eq_def]
    cases ts <;> simp [isSome_orElse, hr]

/-- Every token of a generated line is nonempty. -/
lemma gen_nonempty {ss : List RT.ASlot} {ts : List String} (h : RT.Gen ss ts) :
    ∀ t ∈ ts, t ≠ "" := by
  induction h with
  | nil => simp
  | kw b hv hg ih =>
    intro t ht
    rcases List.mem_cons.mp ht with rfl | ht'
    · exact hv.1
    · exact ih t ht'
  | kwSkip hg ih => exact ih
  | var b hv hg ih =>
    intro t ht
    rcases List.mem_cons.mp ht with rfl | ht'
    · exact hv.1
    · exact ih t ht'
  | varSkip hg ih => exact ih
  | choice b hv hmem hg ih =>
    intro t ht
    rcases List.mem_cons.mp ht with rfl | ht'
    · exact hv.1
    · exact ih t ht'
  | choiceSkip hg ih => exact ih

/-- Dropping null and empty captured values from a match result recovers
the consumed tokens when those are nonempty. -/
lemma filterMap_values :
    ∀ (r : List (RT.ASlot × Option String)) (ts : List String),
      r.filterMap (fun p => p.2) = ts → (∀ t ∈ ts, t ≠ "") →
      r.filterMap (fun p =>
        match p.2 with
        | none => none
        | some v => if v = "" then none else some v) = ts := by
  intro r
  induction r with
  | nil => intro ts h _; simpa using h
  | cons p r ih =>
    intro ts h hne
    cases hp : p.2 with
    | none =>
      rw [List.filterMap_cons, hp] at h ⊢
      exact ih ts h hne
    | some v =>
      rw [List.filterMap_cons, hp] at h ⊢
      cases ts with
      | nil => simp at h
      | cons t ts' =>
        simp only [List.cons.injEq] at h
        obtain ⟨rfl, h2⟩ := h
        have hnev : v ≠ "" := hne v (by simp)
        simp only [if_neg hnev]
        rw [ih ts' h2 fun t ht => hne t (by simp [ht])]

/-- C2: the round-trip law.  For every rule (slot list) and every
combination of present/absent optional slots with well-formed values
(`Gen ss ts`), matching the line, building the record in declared slot
order, and reassembling verb + object + all non-absent token values
(single-space joined, whitespace-normalized) reproduces the
whitespace-normalized original line.  The matching/record-building side is
the spec-modelled Record Builder; the reassembly and normalization are
parser_Check.py's `reassemble_command` and `normalize_space`. -/
theorem c2_round_trip (verb obj : String) (ss : List RT.ASlot) (ts : List String)
    (h : RT.Gen ss ts) :
    ∃ r, RT.matchSlots ss ts = some r ∧
      PCheck.reassemble_command (RT.buildRecord verb obj r) =
        PCheck.normalize_space (String.intercalate " " (verb :: obj :: ts)) := by
  obtain ⟨r, hr⟩ := Option.isSome_iff_exists.mp (matchSlots_complete h)
  refine ⟨r, hr, ?_⟩
  have hvals := matchSlots_sound ss ts r hr
  have hne := gen_nonempty h
  simp only [PCheck.reassemble_command, RT.buildRecord]
  rw [List.filterMap_map]
  exact congrArg
    (fun l => PCheck.normalize_space (String.intercalate " " ([verb, obj] ++ l)))
    (filterMap_values r ts hvals hne)

def c2Slots : List RT.ASlot :=
  [.kw "host" false, .var "ip" false, .kw "port" true, .var "p" true]

/-- C2 witness: the rule `host <ip> [port <p>]` (verb `add`, object
`syslog`) with the optional block absent round-trips the line
`add syslog host 10.10.11.183`. -/
theorem c2_round_trip_witness :
    ∃ r, RT.matchSlots c2Slots ["host", "10.10.11.183"] = some r ∧
      PCheck.reassemble_command (RT.buildRecord "add" "syslog" r) =
        PCheck.normalize_space (String.intercalate " "
          ("add" :: "syslog" :: ["host", "10.10.11.183"])) :=
  c2_round_trip "add" "syslog" c2Slots ["host", "10.10.11.183"]
    (RT.Gen.kw false ⟨by decide, by decide⟩
      (RT.Gen.var false ⟨by decide, by decide⟩
        (RT.Gen.kwSkip (RT.Gen.varSkip RT.Gen.nil))))

/-! ## Claim C3 — absent optional block -/

def c3CmdRule : Option CmdP.CRule :=
  CmdP.compile_template "set" "host" [.opt [.lit "port", .ang "p"]]

def c3Body : List TTok :=
  [.base (.lit "set"), .base (.lit "host"), .opt [.lit "port", .ang "p"]]

/-- C3: an absent optional block must never cause a match failure — for the
rule compiled from `set host [port <p>]`, input `set host` should match
with `p` and the optional `port` keyword both absent.  The transf.py route
behaves exactly so (the whole-line pattern matches `set host` with an empty
capture list: both Values absent), and the rule is otherwise sound (`set
host port 514` captures both).  But in cmd_parser.py the same rule FAILS on
`set host`: the compiled regex is `^set\s+host\s+(?:port\s+(?P<p>\S+))?$` —
step 5 turns the space before `[` into a mandatory `\s+` OUTSIDE the
optional group, so the stripped input `set host` is unmatched, in
contradiction with the code's own `[optional] → (?:...)?` intent and with
the spec invariant.  This theorem evaluates both routes at the failing
input. -/
theorem c3_optional_absent :
    (c3CmdRule.map fun r => CmdP.parse_command "set host" [r]) = some none ∧
    (c3CmdRule.map fun r => CmdP.parse_command "set host port 514" [r]) =
      some (some ⟨"set", "host", [("p\\port", some "514")]⟩) ∧
    runPats false (Transf.naivePats c3Body) "set host".data = some [] ∧
    runPats false (Transf.naivePats c3Body) "set host port 514".data =
      some [("OPT_KW_PORT", "port"), ("P", "514")] := by decide

/-! ## Claim C4 — anchor resolver -/

def c4Body : List TTok :=
  [.base (.lit "set"), .base (.lit "host"), .base (.lit "s"), .base (.ang "x")]

/-- Modelled from the spec: re-expressing the anchor literal as its own
captured slot means replacing the anchor token's OWN pattern part by the
`${ANCHOR}` reference (spec section 4.4); `parts` are the `\s+`-joined
pattern parts, `i` the anchor part's position. -/
def anchorPartReplace (parts : List String) (i : Nat) (nm : String) : String :=
  String.intercalate "\\s+" (parts.set i (Transf.dollarV nm))

/-- C4 counterexample.  The claim says the last mandatory literal is
re-expressed as its own captured anchor slot spliced into the pattern.  The
code instead replaces the LAST SUBSTRING OCCURRENCE of the escaped literal
in the pattern string (`rsplit(lit, 1)`), which need not be the anchor
token: for template body `set host s <x>` the anchor literal `s` last
occurs inside the `\s+` separator, and the splice corrupts the pattern to
`set\s+host\s+s\${ANCHOR_S}+${X}` instead of re-expressing the `s` token
(`set\s+host\s+${ANCHOR_S}\s+${X}`). -/
theorem c4_anchor_counterexample :
    (Transf.build_template c4Body 1 1 "t").final_pattern =
      "set\\s+host\\s+s\\${ANCHOR_S}+${X}" ∧
    (Transf.build_template c4Body 1 1 "t").final_pattern ≠
      anchorPartReplace ["set", "host", "s", "${X}"] 2 "ANCHOR_S" := by decide

/-- C4 (amended): the anchor resolver scans the argument token templates
right-to-left for the last mandatory (non-optional) keyword; if none
exists the rule keeps its naive pattern, and otherwise it appends an
anchor `Value` whose regex is exactly the escaped literal and splices
`${ANCHOR_...}` in for the LAST SUBSTRING OCCURRENCE of the escaped
literal in the pattern string — the anchor token itself only when that
last occurrence is the token (it can instead fall inside an escape
sequence, as the counterexample shows). -/
theorem c4_anchor_resolution :
    (∀ (toks : List TTok) (vN oN : Nat) (id : String),
      Transf.lastMandKw ((Transf.conv_tokens toks).tts.drop (vN + oN)) = none →
      (Transf.build_template toks vN oN id).final_pattern =
        (Transf.build_template toks vN oN id).naive) ∧
    (∀ (toks : List TTok) (vN oN : Nat) (id : String) (i : Nat) (v b a : String),
      Transf.lastMandKw ((Transf.conv_tokens toks).tts.drop (vN + oN)) = some (i, v) →
      ((Transf.conv_tokens toks).vars.any fun w =>
        Transf.isSubstr (Transf.dollarV w) (Transf.escape_lit v)) = false →
      Transf.rsplitOnce (Transf.joinPartsStr (Transf.conv_tokens toks).parts)
        (Transf.escape_lit v) = some (b, a) →
      (Transf.build_template toks vN oN id).final_pattern =
        b ++ Transf.dollarV
          (let nm0 := "ANCHOR_" ++ Transf.toUpperStr (Transf.slug v false)
           if (Transf.conv_tokens toks).vars.contains nm0 then nm0 ++ "_2" else nm0)
          ++ a) := by
  constructor
  · intro toks vN oN id h
    simp [Transf.build_template, h]
  · intro toks vN oN id i v b a h1 h2 h3
    simp [Transf.build_template, h1, h2, h3]

def c4AddBody : List TTok :=
  [.base (.lit "add"), .base (.lit "syslog"), .base (.lit "host"),
   .base (.ang "ip"), .opt [.lit "port", .ang "p"]]

def c4VarBody : List TTok :=
  [.base (.lit "set"), .base (.lit "host"), .base (.ang "x")]

/-- C4 amended-claim witness: at `set host <x>` there is no mandatory
argument literal and the naive pattern is kept; at
`add syslog host <ip> [port <p>]` the anchor `host` is spliced at its (only)
occurrence, producing `add\s+syslog\s+${ANCHOR_HOST}\s+...`. -/
theorem c4_anchor_resolution_witness :
    (Transf.build_template c4VarBody 1 1 "t").final_pattern =
      (Transf.build_template c4VarBody 1 1 "t").naive ∧
    (Transf.build_template c4AddBody 1 1 "t").final_pattern =
      "add\\s+syslog\\s+" ++ Transf.dollarV "ANCHOR_HOST" ++
        "\\s+${IP}(?:\\s+${OPT_KW_PORT}\\s+${P})?" :=
  ⟨c4_anchor_resolution.1 c4VarBody 1 1 "t" (by decide),
   c4_anchor_resolution.2 c4AddBody 1 1 "t" 0 "host" "add\\s+syslog\\s+"
     "\\s+${IP}(?:\\s+${OPT_KW_PORT}\\s+${P})?" (by decide) (by decide) (by decide)⟩

/-! ## Claim C5 — matcher contract -/

/-- C5: for one input line the matcher tries each rule's pattern in
rule-set order and (i) exhausting the rule set yields the explicit
unmatched result `none` — never an exception, the function is total, so
subsequent lines are unaffected; (ii) the first success short-circuits the
scan: whatever follows the first matching rule is ignored and that rule's
record is returned; (iii) a rule succeeds only when its pattern consumes
the whole (stripped) line — every successful `tryRule` yields a whole-line
`PMatch` of the rule's `^...$` pattern. -/
theorem c5_matcher_contract :
    (∀ (cmd : String) (g : List CmdP.CRule),
      (∀ r ∈ g, CmdP.tryRule (pyStripL cmd.data) r = none) →
      CmdP.parse_command cmd g = none) ∧
    (∀ (cmd : String) (g1 g2 : List CmdP.CRule) (r : CmdP.CRule) (caps : Caps),
      (∀ r' ∈ g1, CmdP.tryRule (pyStripL cmd.data) r' = none) →
      CmdP.tryRule (pyStripL cmd.data) r = some caps →
      CmdP.parse_command cmd (g1 ++ r :: g2) = some (CmdP.mkRecord r caps)) ∧
    (∀ (cmd : String) (r : CmdP.CRule) (caps : Caps),
      CmdP.tryRule (pyStripL cmd.data) r = some caps →
      PMatch true r.pats (pyStripL cmd.data)) :=
  ⟨fun _cmd _g h => parse_scan_eq_none h,
   fun _cmd _g1 _g2 _r _caps h1 h2 => parse_scan_append h1 h2,
   fun cmd r caps h => matchF_sound true _ r.pats (pyStripL cmd.data) caps h⟩

def c5Rule : CmdP.CRule :=
  { verb := "set", obj := "host", toks := [.base (.ang "x")]
    pats := [.lit "set", .ws, .lit "host", .ws, .cap "x"]
    groups := ["x"], const_map := [] }

/-- C5 witness: with the single rule `set host <x>`, the unmatchable line
`nope` yields the explicit `none`; on `set host foo` the rule is the first
match and its record is returned with everything after it ignored; and the
successful match is a whole-line `PMatch`. -/
theorem c5_matcher_contract_witness :
    CmdP.parse_command "nope" [c5Rule] = none ∧
    CmdP.parse_command "set host foo" ([] ++ c5Rule :: [c5Rule]) =
      some (CmdP.mkRecord c5Rule [("x", "foo")]) ∧
    PMatch true c5Rule.pats (pyStripL "set host foo".data) :=
  ⟨c5_matcher_contract.1 "nope" [c5Rule] (by decide),
   c5_matcher_contract.2.1 "set host foo" [] [c5Rule] c5Rule [("x", "foo")]
     (by intro r' hr'; cases hr') (by decide),
   c5_matcher_contract.2.2 "set host foo" c5Rule [("x", "foo")] (by decide)⟩

/-! ## Claim C6 — choice tokens -/

def c6CmdRule : Option CmdP.CRule :=
  CmdP.compile_template "set" "host" [.base (.cur "enable|disable")]

def c6Body : List TTok :=
  [.base (.lit "set"), .base (.lit "host"), .base (.cur "enable|disable")]

/-- C6 counterexample.  The claim says `{enable|disable}` compiles to a
NAMED, CAPTURED slot whose value on input `enable` is `enable`.  In
cmd_parser.py a `{...}` token compiles to the NON-capturing group
`(?:enable|disable)`: the compiled rule declares no group at all, and
matching `set host enable` succeeds with an EMPTY argument record — there
is no Choice slot carrying `enable`. -/
theorem c6_choice_counterexample :
    (c6CmdRule.map fun r => r.groups) = some [] ∧
    (c6CmdRule.map fun r => CmdP.parse_command "set host enable" [r]) =
      some (some ⟨"set", "host", []⟩) := by decide

/-- C6 (amended): in transf.py the choice compiles to a named slot `OPTION`
whose allowed values are exactly `{enable, disable}` — matching `enable`
captures `OPTION = enable` and matching `maybe` is unmatched; in
cmd_parser.py the choice is a non-capturing group — `enable` matches but
no slot captures it, and `maybe` is likewise unmatched. -/
theorem c6_choice_behavior :
    (Transf.conv_tokens c6Body).tts.drop 2 =
      [{ type := "variable", name := some "OPTION",
         options := some ["enable", "disable"] }] ∧
    runPats false (Transf.naivePats c6Body) "set host enable".data =
      some [("OPTION", "enable")] ∧
    runPats false (Transf.naivePats c6Body) "set host maybe".data = none ∧
    (c6CmdRule.map fun r => CmdP.parse_command "set host enable" [r]) =
      some (some ⟨"set", "host", []⟩) ∧
    (c6CmdRule.map fun r => CmdP.parse_command "set host maybe" [r]) = some none := by
  decide

/-! ## Claim C7 — compile errors skip only the offending row -/

/-- C7: a template that cannot be compiled (here: duplicate placeholder
names, on which `re.compile` raises `re.error` for the duplicate group
name) causes `load_grammar` to skip that row alone: the surrounding rows
compile exactly as they would without it. -/
theorem c7_bad_row_skipped :
    (∀ (pre : List CmdP.GRow) (r : CmdP.GRow) (post : List CmdP.GRow),
      CmdP.rowRules r = [] →
      CmdP.loadGrammarL (pre ++ r :: post) = CmdP.loadGrammarL (pre ++ post)) ∧
    (∀ (v ob : String) (toks : List TTok),
      CmdP.nodupB (CmdP.tkeys toks) = false →
      CmdP.compile_template v ob toks = none) := by
  constructor
  · intro pre r post h
    have h1 := loadGrammarL_append pre (r :: post)
    have h2 := loadGrammarL_append pre post
    have h3 : CmdP.loadGrammarL (r :: post) = CmdP.loadGrammarL post := by
      simp [CmdP.loadGrammarL, h]
    rw [h1, h3, ← h2]
  · intro v ob toks h
    simp [CmdP.compile_template, h]

def c7DupRow : CmdP.GRow :=
  ⟨some "set", some "host", some [.base (.ang "p"), .base (.ang "p")]⟩

/-- C7 witness: a duplicate-placeholder row between two good rows is
skipped and both neighbours still compile. -/
theorem c7_bad_row_skipped_witness :
    CmdP.loadGrammarL ([c1RowB] ++ c7DupRow :: [c1RowA]) =
      CmdP.loadGrammarL ([c1RowB] ++ [c1RowA]) ∧
    CmdP.compile_template "set" "host" [.base (.ang "p"), .base (.ang "p")] = none :=
  ⟨c7_bad_row_skipped.1 [c1RowB] c7DupRow [c1RowA] rfl,
   c7_bad_row_skipped.2 "set" "host" [.base (.ang "p"), .base (.ang "p")] (by decide)⟩

/-! ## Claim C8 — alternation inside a variable token -/

def c8AngToks : List TTok := [.base (.ang "a|b")]

/-- C8 counterexample.  The claim says that for `<a|b>` only the FIRST
alternative is used as the slot's canonical name and that no multiple slot
names or compiled rules arise.  In cmd_parser.py the slot is named `a_b`
(every non-word run becomes an underscore), not `a`; and parser.py expands
`<a|b>` into TWO templates, one per alternative. -/
theorem c8_alternation_counterexample :
    ((CmdP.compile_template "set" "host" c8AngToks).map fun r => r.groups) =
      some ["a_b"] ∧
    "a_b" ≠ "a" ∧
    (ParserPy.expand_template "set" "host" "<a|b>").length = 2 := by decide

/-- C8 (amended): alternation inside `<...>` is handled three different
ways — cmd_parser.py joins the whole content into one sanitized slot name
(`a|b → a_b`); parser.py enumerates one compiled template per alternative
(`A` and `B`); transf.py treats `<a|b>` as a CHOICE slot named `OPTION`
with allowed values `{a, b}`.  No route uses the first alternative as the
slot's canonical name. -/
theorem c8_alternation_behavior :
    ((CmdP.compile_template "set" "host" c8AngToks).map fun r => r.groups) =
      some ["a_b"] ∧
    ParserPy.expand_template "set" "host" "<a|b>" =
      ["Value A (\\S+)\n\nStart\n  ^set host ${A}$$ -> Record\n",
       "Value B (\\S+)\n\nStart\n  ^set host ${B}$$ -> Record\n"] ∧
    (Transf.conv_tokens [.base (.ang "a|b")]).tts =
      [{ type := "variable", name := some "OPTION", options := some ["a", "b"] }] := by
  decide

/-! ## Claim C9 — case-insensitive matching in cmd_parser -/

/-- Two characters that differ at most in letter case: equal after
case-folding, and (automatically, for genuine case variants) equally
whitespace. -/
def caseVarB (a b : Char) : Bool :=
  (a.toLower == b.toLower) && (isSpaceChar a == isSpaceChar b)

/-- Two character lists that differ only in letter case, pointwise. -/
def eqICb : List Char → List Char → Bool
  | [], [] => true
  | a :: as, b :: bs => caseVarB a b && eqICb as bs
  | _, _ => false

lemma eqICb_length : ∀ {cs cs' : List Char}, eqICb cs cs' = true →
    cs.length = cs'.length := by
  intro cs
  induction cs with
  | nil => intro cs' h; cases cs' with
    | nil => rfl
    | cons c cs' => simp [eqICb] at h
  | cons c cs ih =>
    intro cs' h
    cases cs' with
    | nil => simp [eqICb] at h
    | cons c' cs' =>
      simp only [eqICb, Bool.and_eq_true] at h
      simp [ih h.2]

lemma eqICb_drop : ∀ (i : Nat) {cs cs' : List Char}, eqICb cs cs' = true →
    eqICb (cs.drop i) (cs'.drop i) = true := by
  intro i
  induction i with
  | zero => intro cs cs' h; simpa using h
  | succ i ih =>
    intro cs cs' h
    cases cs with
    | nil => cases cs' with
      | nil => simpa using h
      | cons c' cs' => simp [eqICb] at h
    | cons c cs =>
      cases cs' with
      | nil => simp [eqICb] at h
      | cons c' cs' =>
        simp only [eqICb, Bool.and_eq_true] at h
        exact ih h.2

lemma caseVarB_toLower {a b : Char} (h : caseVarB a b = true) :
    a.toLower = b.toLower := by
  simp only [caseVarB, Bool.and_eq_true, beq_iff_eq] at h
  exact h.1

lemma caseVarB_space {a b : Char} (h : caseVarB a b = true) :
    isSpaceChar a = isSpaceChar b := by
  simp only [caseVarB, Bool.and_eq_true, beq_iff_eq] at h
  exact h.2

lemma lowEq_congr (p : Char) {a b : Char} (h : caseVarB a b = true) :
    lowEq true p a = lowEq true p b := by
  simp [lowEq, caseVarB_toLower h]

lemma dropLit_congr : ∀ (pd : List Char) {cs cs' : List Char},
    eqICb cs cs' = true →
    (dropLit true pd cs = none ∧ dropLit true pd cs' = none) ∨
    (∃ r r', dropLit true pd cs = some r ∧ dropLit true pd cs' = some r' ∧
      eqICb r r' = true) := by
  intro pd
  induction pd with
  | nil => intro cs cs' h; exact Or.inr ⟨cs, cs', rfl, rfl, h⟩
  | cons p pd ih =>
    intro cs cs' h
    cases cs with
    | nil => cases cs' with
      | nil => exact Or.inl ⟨rfl, rfl⟩
      | cons c' cs' => simp [eqICb] at h
    | cons c cs =>
      cases cs' with
      | nil => simp [eqICb] at h
      | cons c' cs' =>
        simp only [eqICb, Bool.and_eq_true] at h
        have hle := lowEq_congr p h.1
        by_cases hl : lowEq true p c = true
        · rw [dropLit, if_pos hl, dropLit, if_pos (hle ▸ hl)]
          exact ih h.2
        · rw [dropLit, if_neg hl, dropLit, if_neg (fun hc => hl (hle ▸ hc))]
          exact Or.inl ⟨rfl, rfl⟩

lemma leadCount_congr (p : Char → Bool)
    (hp : ∀ a b, caseVarB a b = true → p a = p b) :
    ∀ {cs cs' : List Char}, eqICb cs cs' = true →
      leadCount p cs = leadCount p cs' := by
  intro cs
  induction cs with
  | nil => intro cs' h; cases cs' with
    | nil => rfl
    | cons c' cs' => simp [eqICb] at h
  | cons c cs ih =>
    intro cs' h
    cases cs' with
    | nil => simp [eqICb] at h
    | cons c' cs' =>
      simp only [eqICb, Bool.and_eq_true] at h
      rw [leadCount, leadCount, hp c c' h.1, ih h.2]

lemma isSome_map {α β : Type} {x : Option α} {f : α → β} :
    (x.map f).isSome = x.isSome := by cases x <;> simp

lemma findSome?_isSome_congr {α β : Type} :
    ∀ (l : List α) (f g : α → Option β),
      (∀ a ∈ l, (f a).isSome = (g a).isSome) →
      (l.findSome? f).isSome = (l.findSome? g).isSome := by
  intro l
  induction l with
  | nil => intro f g _; rfl
  | cons a l ih =>
    intro f g h
    rw [List.findSome?, List.findSome?]
    have ha := h a (by simp)
    cases hf : f a with
    | some v =>
      cases hg : g a with
      | some w => rfl
      | none => rw [hf, hg] at ha; simp at ha
    | none =>
      cases hg : g a with
      | some w => rw [hf, hg] at ha; simp at ha
      | none => exact ih f g fun x hx => h x (by simp [hx])

/-- The backtracking matcher in IGNORECASE mode cannot distinguish inputs
that differ only in letter case: the match/unmatch outcome is identical. -/
lemma matchF_isSome_congr :
    ∀ (f : Nat) (ps : List RPat) {cs cs' : List Char}, eqICb cs cs' = true →
      (matchF true f ps cs).isSome = (matchF true f ps cs').isSome := by
  intro f
  induction f with
  | zero => intro ps cs cs' _; rfl
  | succ f ih =>
    intro ps cs cs' h
    cases ps with
    | nil =>
      cases cs with
      | nil => cases cs' with
        | nil => rfl
        | cons c' cs' => simp [eqICb] at h
      | cons c cs =>
        cases cs' with
        | nil => simp [eqICb] at h
        | cons c' cs' => simp [matchF]
    | cons p ps =>
      cases p with
      | lit s =>
        simp only [matchF]
        rcases dropLit_congr s.data h with ⟨h1, h2⟩ | ⟨r, r', h1, h2, hrr⟩
        · rw [h1, h2]
        · rw [h1, h2]; exact ih ps hrr
      | ws =>
        simp only [matchF]
        rw [leadCount_congr isSpaceChar (fun a b hab => caseVarB_space hab) h]
        exact findSome?_isSome_congr _ _ _ fun i _ => ih ps (eqICb_drop i h)
      | wss =>
        simp only [matchF]
        rw [leadCount_congr isSpaceChar (fun a b hab => caseVarB_space hab) h]
        exact findSome?_isSome_congr _ _ _ fun i _ => ih ps (eqICb_drop i h)
      | cap n =>
        simp only [matchF]
        rw [leadCount_congr (fun c => !isSpaceChar c)
          (fun a b hab => by simp [caseVarB_space hab]) h]
        refine findSome?_isSome_congr _ _ _ fun i _ => ?_
        rw [isSome_map, isSome_map]
        exact ih ps (eqICb_drop i h)
      | capChoice n os =>
        simp only [matchF]
        refine findSome?_isSome_congr _ _ _ fun o _ => ?_
        rcases dropLit_congr o.data h with ⟨h1, h2⟩ | ⟨r, r', h1, h2, hrr⟩
        · rw [h1, h2]
        · rw [h1, h2, isSome_map, isSome_map]; exact ih ps hrr
      | alts os =>
        simp only [matchF]
        refine findSome?_isSome_congr _ _ _ fun o _ => ?_
        rcases dropLit_congr o.data h with ⟨h1, h2⟩ | ⟨r, r', h1, h2, hrr⟩
        · rw [h1, h2]
        · rw [h1, h2]; exact ih ps hrr
      | opt inner =>
        simp only [matchF]
        rw [isSome_orElse, isSome_orElse, ih (inner ++ ps) h, ih ps h]

lemma eqICb_append : ∀ {as bs cs ds : List Char}, eqICb as bs = true →
    eqICb cs ds = true → eqICb (as ++ cs) (bs ++ ds) = true := by
  intro as
  induction as with
  | nil => intro bs cs ds h1 h2; cases bs with
    | nil => simpa using h2
    | cons b bs => simp [eqICb] at h1
  | cons a as ih =>
    intro bs cs ds h1 h2
    cases bs with
    | nil => simp [eqICb] at h1
    | cons b bs =>
      simp only [eqICb, Bool.and_eq_true] at h1
      simp only [List.cons_append, eqICb, Bool.and_eq_true]
      exact ⟨h1.1, ih h1.2 h2⟩

lemma eqICb_reverse : ∀ {cs cs' : List Char}, eqICb cs cs' = true →
    eqICb cs.reverse cs'.reverse = true := by
  intro cs
  induction cs with
  | nil => intro cs' h; cases cs' with
    | nil => simpa using h
    | cons c' cs' => simp [eqICb] at h
  | cons c cs ih =>
    intro cs' h
    cases cs' with
    | nil => simp [eqICb] at h
    | cons c' cs' =>
      simp only [eqICb, Bool.and_eq_true] at h
      simp only [List.reverse_cons]
      exact eqICb_append (ih h.2) (by simp [eqICb, h.1])

lemma eqICb_dropWhile_space : ∀ {cs cs' : List Char}, eqICb cs cs' = true →
    eqICb (cs.dropWhile fun c => isSpaceChar c)
      (cs'.dropWhile fun c => isSpaceChar c) = true := by
  intro cs
  induction cs with
  | nil => intro cs' h; cases cs' with
    | nil => simpa using h
    | cons c' cs' => simp [eqICb] at h
  | cons c cs ih =>
    intro cs' h
    cases cs' with
    | nil => simp [eqICb] at h
    | cons c' cs' =>
      simp only [eqICb, Bool.and_eq_true] at h
      rw [List.dropWhile_cons, List.dropWhile_cons, caseVarB_space h.1]
      by_cases hs : isSpaceChar c' = true
      · simp only [hs, if_true]
        exact ih h.2
      · simp only [hs, if_false]
        simpa [eqICb, h.1] using h.2

lemma eqICb_pyStripL {cs cs' : List Char} (h : eqICb cs cs' = true) :
    eqICb (pyStripL cs) (pyStripL cs') = true := by
  have h1 := eqICb_dropWhile_space h
  have h2 := eqICb_reverse h1
  have h3 := eqICb_dropWhile_space h2
  exact eqICb_reverse h3

lemma tryRule_isSome_congr {cs cs' : List Char} (r : CmdP.CRule)
    (h : eqICb cs cs' = true) :
    (CmdP.tryRule cs r).isSome = (CmdP.tryRule cs' r).isSome := by
  unfold CmdP.tryRule runPats
  rw [eqICb_length h]
  exact matchF_isSome_congr _ r.pats h

/-- C9: matching in cmd_parser.py is case-insensitive — the compiled
pattern carries `re.IGNORECASE` — so for every compiled grammar, two input
lines that differ only in letter case produce the same match/unmatch
outcome, and when they match they match the same rule, hence the resulting
records carry the same verb and object (captured argument values keep each
input's own case). -/
theorem c9_case_insensitive :
    ∀ (g : List CmdP.CRule) (s s' : String), eqICb s.data s'.data = true →
      (CmdP.parse_command s g).map (fun q => (q.verb, q.obj)) =
        (CmdP.parse_command s' g).map (fun q => (q.verb, q.obj)) ∧
      (CmdP.parse_command s g).isSome = (CmdP.parse_command s' g).isSome := by
  intro g s s' h
  have hs := eqICb_pyStripL h
  unfold CmdP.parse_command
  generalize pyStripL s.data = cs at hs
  generalize pyStripL s'.data = cs' at hs
  have main : (CmdP.parse_scan cs g).map (fun q => (q.verb, q.obj)) =
      (CmdP.parse_scan cs' g).map (fun q => (q.verb, q.obj)) := by
    induction g with
    | nil => rfl
    | cons r g ih =>
      have ht := tryRule_isSome_congr r hs
      simp only [CmdP.parse_scan]
      cases h1 : CmdP.tryRule cs r with
      | some caps =>
        cases h2 : CmdP.tryRule cs' r with
        | some caps' => simp [CmdP.mkRecord]
        | none => rw [h1, h2] at ht; simp at ht
      | none =>
        cases h2 : CmdP.tryRule cs' r with
        | some caps' => rw [h1, h2] at ht; simp at ht
        | none => exact ih
  refine ⟨main, ?_⟩
  cases hx : CmdP.parse_scan cs g with
  | some q =>
    cases hy : CmdP.parse_scan cs' g with
    | some q' => rfl
    | none => rw [hx, hy] at main; simp at main
  | none =>
    cases hy : CmdP.parse_scan cs' g with
    | some q' => rw [hx, hy] at main; simp at main
    | none => rfl

def c9Rule : CmdP.CRule :=
  { verb := "set", obj := "host", toks := [.base (.ang "x")]
    pats := [.lit "set", .ws, .lit "host", .ws, .cap "x"]
    groups := ["x"], const_map := [] }

/-- C9 witness: `SET HOST FOO` and `set host foo` match the same rule with
the same verb and object. -/
theorem c9_case_insensitive_witness :
    (CmdP.parse_command "SET HOST FOO" [c9Rule]).map (fun q => (q.verb, q.obj)) =
      (CmdP.parse_command "set host foo" [c9Rule]).map (fun q => (q.verb, q.obj)) ∧
    (CmdP.parse_command "SET HOST FOO" [c9Rule]).isSome =
      (CmdP.parse_command "set host foo" [c9Rule]).isSome :=
  c9_case_insensitive [c9Rule] "SET HOST FOO" "set host foo" (by decide)

/-! ## Claim C10 — `show` rows -/

def c10SlashRow : Transf.XRow := ⟨some "show/hide", some "x", some "y", false⟩

def c10ShowBody : List TTok :=
  [.base (.lit "show"), .base (.lit "x"), .base (.lit "y")]

/-- C10 counterexample.  Rows whose verb is exactly `show` are indeed
skipped, but the claim's consequence — that no `show ...` input line can
ever match — is false: a slash-verb row `show/hide` passes the filter
(`"show/hide".lower() != "show"`), is split into verbs `show` and `hide`,
and yields a compiled rule/template for verb `show` in both transf.py and
parser.py; the line `show x y` then matches the generated rule. -/
theorem c10_show_counterexample :
    Transf.parse_row c10SlashRow none none =
      [("show", "x", "y"), ("hide", "x", "y")] ∧
    (ParserPy.compile_excel [⟨some "show/hide", some "x", some "<y>"⟩]).map
      Prod.fst = ["0000_show_x.template", "0001_hide_x.template"] ∧
    runPats false (Transf.naivePats c10ShowBody) "show x y".data = some [] := by
  decide

/-- The verb a transf.py row carries after continuation fill-in. -/
def carriedVerb (row : Transf.XRow) (prev_v : Option String) : Option String :=
  Transf.carryCell row.verb prev_v

/-- C10 (amended): a row whose carried verb equals `show` (case-folded)
contributes nothing — transf.py's `parse_row` returns no records for it,
and parser.py's compile loop writes no template file and does not advance
its counter; but `show`-verbed rules can still arise from slash-verb rows
such as `show/hide`, so `show ...` lines are not unmatchable in general. -/
theorem c10_show_rows_skipped :
    (∀ (row : Transf.XRow) (pv po : Option String) (v : String),
      carriedVerb row pv = some v → toLowerStr v = "show" →
      Transf.parse_row row pv po = []) ∧
    (∀ (n : Nat) (row : ParserPy.PRow) (rest : List ParserPy.PRow),
      toLowerStr (pyStrip ((row.verb).getD "nan")) = "show" →
      ParserPy.compileRowsGo n (row :: rest) = ParserPy.compileRowsGo n rest) := by
  constructor
  · intro row pv po v hv hshow
    obtain ⟨rv, ro, rt, rs⟩ := row
    simp only [carriedVerb] at hv
    simp only [Transf.parse_row, hv]
    split
    · rfl
    · split
      · rfl
      · generalize Transf.carryCell ro po = o?
        cases o? with
        | none => rfl
        | some obj => simp [hshow]
  · intro n row rest hshow
    obtain ⟨rv, ro, rt⟩ := row
    cases rt with
    | none => rfl
    | some t =>
      simp only [ParserPy.compileRowsGo]
      split
      · rfl
      · simp only at hshow
        simp [hshow]

def c10ShowOnlyRow : Transf.XRow := ⟨some "show", some "x", some "y", false⟩

/-- C10 amended-claim witness: the pure-`show` row yields no transf record
and no parser.py template. -/
theorem c10_show_rows_skipped_witness :
    Transf.parse_row c10ShowOnlyRow none none = [] ∧
    ParserPy.compileRowsGo 0 [⟨some "Show", some "x", some "<y>"⟩] =
      ParserPy.compileRowsGo 0 [] :=
  ⟨c10_show_rows_skipped.1 c10ShowOnlyRow none none "show" (by decide) (by decide),
   c10_show_rows_skipped.2 0 ⟨some "Show", some "x", some "<y>"⟩ [] (by decide)⟩

end Spec2Proof
